import Mathlib

/-!
Verification development for the PLONKish arithmetization layer in
src/src/arithmetic_circuit.rs (circuit for the relation z = x^2 * y^2 + c).

The Rust source is shallowly embedded as follows:
* halo2 `Value<V>` (an Option wrapper with map/zip combinators) becomes the
  structure `Value` below; `Assigned<F>` is a deferred-division wrapper whose
  arithmetic agrees with field arithmetic, so it is identified with `F`.
* `ConstraintSystem` keeps column counters, the equality-enabled columns and
  the registered gates; gate registration records both the cell queries made
  by the closure and the returned polynomial expressions (`Expr`).
* A `Layouter` run is embedded as an accumulating `Trace`: the list of
  regions (each with its advice and fixed assignments), the copy constraints
  from `constrain_equal`, and the instance bindings from `constrain_instance`.
  Each chip operation returns `Except`, mirroring `Result`; with the
  `SimpleFloorPlanner` backend none of the operations used here fails.
* Unassigned fixed cells evaluate to 0 (the backend zero-initializes fixed
  polynomials), and all gate queries are at the current rotation, so a gate is
  evaluated per region row from that region's own assignments.
-/

namespace Halo2

/-- halo2 `Value<V>`: a wrapper around `Option` with an unknown state used
during shape-only synthesis. -/
structure Value (F : Type) where
  inner : Option F
deriving DecidableEq

/-- `Value::known`. -/
def Value.known {F : Type} (a : F) : Value F := ⟨some a⟩

/-- `Value::unknown`. -/
def Value.unknown {F : Type} : Value F := ⟨none⟩

/-- `Value::map`: mapped unknowns stay unknown. -/
def Value.map {F G : Type} (v : Value F) (f : F → G) : Value G :=
  ⟨v.inner.map f⟩

/-- `Value::zip`: the pair is known only when both components are. -/
def Value.zip {F G : Type} (v : Value F) (w : Value G) : Value (F × G) :=
  ⟨v.inner.bind fun a => w.inner.map fun b => (a, b)⟩

/-- Column kinds of the backend (`Advice`, `Fixed`, `Instance`). -/
inductive ColKind where
  | advice
  | fixed
  | inst
deriving DecidableEq

/-- A cell query made while building a gate (column index and rotation). -/
inductive Query where
  | adviceQ (column : ℕ) (rot : ℤ)
  | fixedQ (column : ℕ) (rot : ℤ)
  | instQ (column : ℕ) (rot : ℤ)
deriving DecidableEq

/-- halo2 `Expression<F>`: the polynomial AST returned by a gate closure. -/
inductive Expr (F : Type) where
  | const (a : F)
  | adviceE (column : ℕ) (rot : ℤ)
  | fixedE (column : ℕ) (rot : ℤ)
  | instE (column : ℕ) (rot : ℤ)
  | neg (e : Expr F)
  | add (e₁ e₂ : Expr F)
  | mul (e₁ e₂ : Expr F)
deriving DecidableEq

instance {F : Type} : Add (Expr F) := ⟨Expr.add⟩

instance {F : Type} : Mul (Expr F) := ⟨Expr.mul⟩

instance {F : Type} : Neg (Expr F) := ⟨Expr.neg⟩

/-- `Rotation::cur()`. -/
def Rotation.cur : ℤ := 0

/-- Evaluate an expression against valuations of the advice, fixed and
instance queries. -/
def Expr.eval {F : Type} [CommRing F] (adv fx iv : ℕ → ℤ → F) : Expr F → F
  | .const a => a
  | .adviceE c r => adv c r
  | .fixedE c r => fx c r
  | .instE c r => iv c r
  | .neg e => -(Expr.eval adv fx iv e)
  | .add e₁ e₂ => Expr.eval adv fx iv e₁ + Expr.eval adv fx iv e₂
  | .mul e₁ e₂ => Expr.eval adv fx iv e₁ * Expr.eval adv fx iv e₂

/-- The constraint-system builder: column counters, equality-enabled columns
and registered gates (name, queries made, polynomial expressions). -/
structure ConstraintSystem (F : Type) where
  numAdvice : ℕ
  numFixed : ℕ
  numInstance : ℕ
  permutationColumns : List (ColKind × ℕ)
  gates : List (String × List Query × List (Expr F))

/-- A fresh `ConstraintSystem`. -/
def ConstraintSystem.init {F : Type} : ConstraintSystem F := ⟨0, 0, 0, [], []⟩

/-- `meta.advice_column()`. -/
def advice_column {F : Type} (cs : ConstraintSystem F) : ℕ × ConstraintSystem F :=
  (cs.numAdvice, { cs with numAdvice := cs.numAdvice + 1 })

/-- `meta.fixed_column()`. -/
def fixed_column {F : Type} (cs : ConstraintSystem F) : ℕ × ConstraintSystem F :=
  (cs.numFixed, { cs with numFixed := cs.numFixed + 1 })

/-- `meta.instance_column()`. -/
def instance_column {F : Type} (cs : ConstraintSystem F) : ℕ × ConstraintSystem F :=
  (cs.numInstance, { cs with numInstance := cs.numInstance + 1 })

/-- `meta.enable_equality(column)`. -/
def enable_equality {F : Type} (column : ColKind × ℕ) (cs : ConstraintSystem F) :
    ConstraintSystem F :=
  { cs with permutationColumns := cs.permutationColumns ++ [column] }

/-- `meta.query_advice(column, rot)` inside a gate closure: records the query
and returns the query expression. -/
def query_advice {F : Type} (column : ℕ) (rot : ℤ) : StateM (List Query) (Expr F) := do
  modify fun qs => qs ++ [Query.adviceQ column rot]
  pure (Expr.adviceE column rot)

/-- `meta.query_fixed(column, rot)` inside a gate closure. -/
def query_fixed {F : Type} (column : ℕ) (rot : ℤ) : StateM (List Query) (Expr F) := do
  modify fun qs => qs ++ [Query.fixedQ column rot]
  pure (Expr.fixedE column rot)

/-- `meta.query_instance(column, rot)` inside a gate closure. -/
def query_instance {F : Type} (column : ℕ) (rot : ℤ) : StateM (List Query) (Expr F) := do
  modify fun qs => qs ++ [Query.instQ column rot]
  pure (Expr.instE column rot)

/-- `meta.create_gate(name, closure)`: runs the closure on an empty query
recorder and registers the gate. -/
def create_gate {F : Type} (nm : String) (f : StateM (List Query) (List (Expr F)))
    (cs : ConstraintSystem F) : ConstraintSystem F :=
  let p := f.run []
  { cs with gates := cs.gates ++ [(nm, p.2, p.1)] }

/-- `ArithmeticConfig` (lines 41-52): the column handles. Columns are
identified by their allocation index within their kind. -/
structure ArithmeticConfig where
  l : ℕ
  r : ℕ
  o : ℕ
  sl : ℕ
  sr : ℕ
  so : ℕ
  sm : ℕ
  sc : ℕ
  PI : ℕ
deriving DecidableEq

/-- `ArithmeticCircuit::configure` (lines 191-236), with the source's
allocation order: advice l, r, o; fixed sm, sl, sr, so, sc; instance PI; and
the single "plonk" gate `sl*l + sr*r + l*r*sm + o*so*(-1) + sc`. -/
def configure {F : Type} [CommRing F] (meta_ : ConstraintSystem F) :
    ArithmeticConfig × ConstraintSystem F :=
  let (l, meta_) := advice_column meta_
  let (r, meta_) := advice_column meta_
  let (o, meta_) := advice_column meta_
  let meta_ := enable_equality (ColKind.advice, l) meta_
  let meta_ := enable_equality (ColKind.advice, r) meta_
  let meta_ := enable_equality (ColKind.advice, o) meta_
  let (sm, meta_) := fixed_column meta_
  let (sl, meta_) := fixed_column meta_
  let (sr, meta_) := fixed_column meta_
  let (so, meta_) := fixed_column meta_
  let (sc, meta_) := fixed_column meta_
  let (PI, meta_) := instance_column meta_
  let meta_ := enable_equality (ColKind.inst, PI) meta_
  let meta_ := create_gate ("plonk") (do
      let l ← query_advice l Rotation.cur
      let r ← query_advice r Rotation.cur
      let o ← query_advice o Rotation.cur
      let sm ← query_fixed sm Rotation.cur
      let sl ← query_fixed sl Rotation.cur
      let sr ← query_fixed sr Rotation.cur
      let so ← query_fixed so Rotation.cur
      let sc ← query_fixed sc Rotation.cur
      let PI ← query_instance (F := F) PI Rotation.cur
      pure [sl * l + sr * r + l * r * sm + (o * so * Expr.const (-(1 : F))) + sc]) meta_
  (⟨l, r, o, sl, sr, so, sm, sc, PI⟩, meta_)

/-- A cell address: region index, advice-column index, row within the
region. All cells returned by the chip operations are advice cells. -/
structure Cell where
  region : ℕ
  column : ℕ
  row : ℕ
deriving DecidableEq

/-- One assigned region: its name and the advice and fixed assignments
(`(column, row, value)` triples, rows are relative to the region). -/
structure Region (F : Type) where
  name : String
  advice : List (ℕ × ℕ × Value F)
  fixed : List (ℕ × ℕ × Value F)
deriving DecidableEq

/-- The layouter state accumulated by one synthesis run: regions in
allocation order, copy constraints from `constrain_equal`, and instance
bindings `(cell, instance column, instance row)` from `constrain_instance`. -/
structure Trace (F : Type) where
  regions : List (Region F)
  copies : List (Cell × Cell)
  instBindings : List (Cell × ℕ × ℕ)
deriving DecidableEq

/-- The empty layouter state. -/
def Trace.empty {F : Type} : Trace F := ⟨[], [], []⟩

/-- halo2 `plonk::Error`; with `SimpleFloorPlanner`, none of the operations
this circuit performs can fail, so the error is never produced. -/
inductive PlonkError where
  | synthesisError
deriving DecidableEq

/-- `ArithmeticChip` (lines 54-66). -/
structure ArithmeticChip (F : Type) where
  config : ArithmeticConfig

/-- `ArithmeticChip::new`. -/
def ArithmeticChip.new {F : Type} (config : ArithmeticConfig) : ArithmeticChip F :=
  ⟨config⟩

/-- `raw_multiply` (lines 69-108): one region named "mul"; the triple from
`f` goes to columns l, r, o at row 0; `sm` and `so` are fixed to 1. The Rust
`Some(f()).unwrap()` wrapping is the identity and is elided. -/
def ArithmeticChip.raw_multiply {F : Type} [CommRing F] (self : ArithmeticChip F)
    (f : Unit → Value (F × F × F)) (t : Trace F) :
    Except PlonkError ((Cell × Cell × Cell) × Trace F) :=
  let values := f ()
  let i := t.regions.length
  let lhs : Cell := ⟨i, self.config.l, 0⟩
  let rhs : Cell := ⟨i, self.config.r, 0⟩
  let out : Cell := ⟨i, self.config.o, 0⟩
  Except.ok ((lhs, rhs, out),
    { t with regions := t.regions ++ [{
        name := "mul",
        advice := [(self.config.l, 0, values.map fun v => v.1),
                   (self.config.r, 0, values.map fun v => v.2.1),
                   (self.config.o, 0, values.map fun v => v.2.2)],
        fixed := [(self.config.sm, 0, Value.known 1),
                  (self.config.so, 0, Value.known 1)] }] })

/-- `raw_add` (lines 110-149): one region named "add"; the triple from `f`
goes to columns l, r, o at row 0; `sl` and `sr` are fixed to 1 — and, as in
the source, no other fixed cell of the region is assigned. -/
def ArithmeticChip.raw_add {F : Type} [CommRing F] (self : ArithmeticChip F)
    (f : Unit → Value (F × F × F)) (t : Trace F) :
    Except PlonkError ((Cell × Cell × Cell) × Trace F) :=
  let values := f ()
  let i := t.regions.length
  let lhs : Cell := ⟨i, self.config.l, 0⟩
  let rhs : Cell := ⟨i, self.config.r, 0⟩
  let out : Cell := ⟨i, self.config.o, 0⟩
  Except.ok ((lhs, rhs, out),
    { t with regions := t.regions ++ [{
        name := "add",
        advice := [(self.config.l, 0, values.map fun v => v.1),
                   (self.config.r, 0, values.map fun v => v.2.1),
                   (self.config.o, 0, values.map fun v => v.2.2)],
        fixed := [(self.config.sl, 0, Value.known 1),
                  (self.config.sr, 0, Value.known 1)] }] })

/-- `copy` (lines 151-153): opens an (empty) region named "copy" and records
the equality constraint between the two cells. -/
def ArithmeticChip.copy {F : Type} (self : ArithmeticChip F) (a b : Cell)
    (t : Trace F) : Except PlonkError (Trace F) :=
  Except.ok { t with regions := t.regions ++ [⟨"copy", [], []⟩],
                     copies := t.copies ++ [(a, b)] }

/-- `expose_public` (lines 155-162): `layouter.constrain_instance(cell, PI, row)`. -/
def ArithmeticChip.expose_public {F : Type} (self : ArithmeticChip F) (cell : Cell)
    (row : ℕ) (t : Trace F) : Except PlonkError (Trace F) :=
  Except.ok { t with instBindings := t.instBindings ++ [(cell, self.config.PI, row)] }

/-- `ArithmeticCircuit` (lines 165-170): private witness x, y and the
constant. -/
structure ArithmeticCircuit (F : Type) where
  x : Value F
  y : Value F
  constant : F

/-- `without_witnesses` (lines 187-189): `Self::default()`, i.e. unknown x
and y and the default (zero) constant. -/
def ArithmeticCircuit.without_witnesses {F : Type} [CommRing F]
    (self : ArithmeticCircuit F) : ArithmeticCircuit F :=
  ⟨Value.unknown, Value.unknown, 0⟩

/-- `ArithmeticCircuit::synthesize` (lines 238-272). The layouter state is
threaded explicitly; `Assigned` coercions are identities in this embedding. -/
def synthesize {F : Type} [CommRing F] (self : ArithmeticCircuit F)
    (config : ArithmeticConfig) (t : Trace F) : Except PlonkError (Trace F) := do
  let cs := ArithmeticChip.new (F := F) config
  let x : Value F := self.x
  let y : Value F := self.y
  let consty : F := self.constant
  let ((a0, b0, c0), t) ← cs.raw_multiply (fun _ => x.map fun x => (x, x, x * x)) t
  let t ← cs.copy a0 b0 t
  let ((a1, b1, c1), t) ← cs.raw_multiply (fun _ => y.map fun y => (y, y, y * y)) t
  let t ← cs.copy a1 b1 t
  let ((a2, b2, c2), t) ← cs.raw_multiply
    (fun _ => (x.zip y).map fun (x, y) => (x * x, y * y, (x * x) * (y * y))) t
  let t ← cs.copy c0 a2 t
  let t ← cs.copy c1 b2 t
  let ((a3, b3, c3), t) ← cs.raw_add
    (fun _ => (x.zip y).map fun (x, y) => ((x * x) * (y * y), consty, (x * x) * (y * y) + consty)) t
  let t ← cs.copy c2 a3 t
  let t ← cs.expose_public c3 0 t
  pure t

/-- The configuration produced by running `configure` on a fresh
constraint system (what the backend does once per circuit type). -/
def theConfig (F : Type) [CommRing F] : ArithmeticConfig :=
  (configure (F := F) ConstraintSystem.init).1

/-- The constraint system produced by `configure`. -/
def theCS (F : Type) [CommRing F] : ConstraintSystem F :=
  (configure ConstraintSystem.init).2

/-- The gates registered by `configure`. -/
def gatesOf (F : Type) [CommRing F] : List (String × List Query × List (Expr F)) :=
  (theCS F).gates

/-- All polynomial expressions of all registered gates. -/
def gateExprs (F : Type) [CommRing F] : List (Expr F) :=
  ((gatesOf F).map fun g => g.2.2).flatten

/-- The trace of one synthesis run of the circuit (starting from an empty
layouter, with the configuration from `configure`). -/
def synthTrace {F : Type} [CommRing F] (circ : ArithmeticCircuit F) : Trace F :=
  match synthesize circ (theConfig F) Trace.empty with
  | .ok t => t
  | .error _ => Trace.empty

/-- The value assigned in a region to an advice cell (unknown when the cell
is unassigned). -/
def Region.adviceAt {F : Type} (reg : Region F) (column row : ℕ) : Value F :=
  ((reg.advice.find? fun e => e.1 == column && e.2.1 == row).map fun e => e.2.2).getD
    Value.unknown

/-- The value of a fixed cell of a region; unassigned fixed cells are 0 (the
backend zero-initializes fixed columns). -/
def Region.fixedVal {F : Type} [CommRing F] (reg : Region F) (column row : ℕ) : F :=
  ((((reg.fixed.find? fun e => e.1 == column && e.2.1 == row).map fun e => e.2.2).getD
    Value.unknown).inner).getD 0

/-- Advice valuation of a region row for gate evaluation (all the circuit's
queries are at the current rotation, so the rotation is ignored; unknown or
unassigned advice evaluates as 0). -/
def Region.adviceFun {F : Type} [CommRing F] (reg : Region F) : ℕ → ℤ → F :=
  fun column _ => (reg.adviceAt column 0).inner.getD 0

/-- Fixed valuation of a region row for gate evaluation. -/
def Region.fixedFun {F : Type} [CommRing F] (reg : Region F) : ℕ → ℤ → F :=
  fun column _ => reg.fixedVal column 0

/-- The values of every registered gate polynomial under the given
valuations. -/
def gateValues {F : Type} [CommRing F] (adv fx iv : ℕ → ℤ → F) : List F :=
  (gateExprs F).map (Expr.eval adv fx iv)

/-- The values of every registered gate polynomial on the row of a region,
given the public-input value on that row. -/
def regionGateValues {F : Type} [CommRing F] (reg : Region F) (insv : F) : List F :=
  gateValues reg.adviceFun reg.fixedFun fun _ _ => insv

/-- The concrete value held by a cell of a trace. -/
def cellValue {F : Type} [CommRing F] (t : Trace F) (cell : Cell) : F :=
  (((t.regions.getD cell.region ⟨"", [], []⟩).adviceAt cell.column cell.row).inner).getD 0

/-- Number of rows a region occupies (a region that assigns nothing, like
"copy", has height 0 under the floor planner). -/
def Region.height {F : Type} (reg : Region F) : ℕ :=
  if reg.advice.isEmpty && reg.fixed.isEmpty then 0 else 1

/-- The absolute row at which the floor planner places region `i` (regions
are packed in order). -/
def rowOfRegion {F : Type} (t : Trace F) (i : ℕ) : ℕ :=
  ((t.regions.take i).map Region.height).sum

/-- Every registered gate identity holds on the row of every region of the
trace, with the instance column valued by `inst` at the region's row. -/
abbrev allGatesHold {F : Type} [CommRing F] (t : Trace F) (inst : ℕ → F) : Prop :=
  ∀ p ∈ t.regions.enum, ∀ v ∈ regionGateValues p.2 (inst (rowOfRegion t p.1)), v = 0

/-- Every registered copy constraint holds on the trace. -/
abbrev copiesHold {F : Type} [CommRing F] (t : Trace F) : Prop :=
  ∀ p ∈ t.copies, cellValue t p.1 = cellValue t p.2

/-- Every instance binding holds: the bound cell equals the public input at
the bound row. -/
abbrev instBindingsHold {F : Type} [CommRing F] (t : Trace F) (inst : ℕ → F) : Prop :=
  ∀ b ∈ t.instBindings, cellValue t b.1 = inst b.2.2

/-- What a validating backend checks on a synthesized trace against a
public-input column valuation: all gate identities, all copy constraints and
all instance bindings. -/
abbrev traceValid {F : Type} [CommRing F] (t : Trace F) (inst : ℕ → F) : Prop :=
  allGatesHold t inst ∧ copiesHold t ∧ instBindingsHold t inst

/-- The region written by `raw_multiply` for a known triple `(a, b, c)`:
`a` to column l (advice 0), `b` to column r (advice 1), `c` to column o
(advice 2) at row 0, with `sm` (fixed 0) and `so` (fixed 3) set to 1. -/
def mulRegion {F : Type} [CommRing F] (a b c : F) : Region F :=
  { name := "mul",
    advice := [(0, 0, Value.known a), (1, 0, Value.known b), (2, 0, Value.known c)],
    fixed := [(0, 0, Value.known 1), (3, 0, Value.known 1)] }

/-- The region written by `raw_add` for a known triple `(a, b, c)`:
`a` to column l, `b` to column r, `c` to column o at row 0, with `sl`
(fixed 1) and `sr` (fixed 2) set to 1 — and nothing else. -/
def addRegion {F : Type} [CommRing F] (a b c : F) : Region F :=
  { name := "add",
    advice := [(0, 0, Value.known a), (1, 0, Value.known b), (2, 0, Value.known c)],
    fixed := [(1, 0, Value.known 1), (2, 0, Value.known 1)] }

/-- The empty region opened by `copy`. -/
def copyRegion {F : Type} : Region F := ⟨"copy", [], []⟩

/-- The trace of a synthesis run with a fully known witness `(x, y)` and
constant `c`, written out region by region. -/
def knownTrace {F : Type} [CommRing F] (x y c : F) : Trace F :=
  { regions :=
      [mulRegion x x (x * x), copyRegion,
       mulRegion y y (y * y), copyRegion,
       mulRegion (x * x) (y * y) ((x * x) * (y * y)), copyRegion, copyRegion,
       addRegion ((x * x) * (y * y)) c ((x * x) * (y * y) + c), copyRegion],
    copies :=
      [(⟨0, 0, 0⟩, ⟨0, 1, 0⟩), (⟨2, 0, 0⟩, ⟨2, 1, 0⟩),
       (⟨0, 2, 0⟩, ⟨4, 0, 0⟩), (⟨2, 2, 0⟩, ⟨4, 1, 0⟩), (⟨4, 2, 0⟩, ⟨7, 0, 0⟩)],
    instBindings := [(⟨7, 2, 0⟩, 0, 0)] }

/-- `synthesize` on a known witness produces exactly `knownTrace`. -/
lemma synthTrace_known {F : Type} [CommRing F] (x y c : F) :
    synthTrace ⟨Value.known x, Value.known y, c⟩ = knownTrace x y c := rfl

/-- The trace of a shape-only synthesis run (x and y unknown): the same
regions, copies and bindings, with every advice value unknown. -/
def unknownTrace (F : Type) [CommRing F] : Trace F :=
  { regions :=
      [⟨"mul", [(0, 0, Value.unknown), (1, 0, Value.unknown), (2, 0, Value.unknown)],
        [(0, 0, Value.known 1), (3, 0, Value.known 1)]⟩, copyRegion,
       ⟨"mul", [(0, 0, Value.unknown), (1, 0, Value.unknown), (2, 0, Value.unknown)],
        [(0, 0, Value.known 1), (3, 0, Value.known 1)]⟩, copyRegion,
       ⟨"mul", [(0, 0, Value.unknown), (1, 0, Value.unknown), (2, 0, Value.unknown)],
        [(0, 0, Value.known 1), (3, 0, Value.known 1)]⟩, copyRegion, copyRegion,
       ⟨"add", [(0, 0, Value.unknown), (1, 0, Value.unknown), (2, 0, Value.unknown)],
        [(1, 0, Value.known 1), (2, 0, Value.known 1)]⟩, copyRegion],
    copies :=
      [(⟨0, 0, 0⟩, ⟨0, 1, 0⟩), (⟨2, 0, 0⟩, ⟨2, 1, 0⟩),
       (⟨0, 2, 0⟩, ⟨4, 0, 0⟩), (⟨2, 2, 0⟩, ⟨4, 1, 0⟩), (⟨4, 2, 0⟩, ⟨7, 0, 0⟩)],
    instBindings := [(⟨7, 2, 0⟩, 0, 0)] }

/-- The shape of a region: its name, which advice cells it assigns (without
their values), and its full fixed (selector) assignment. -/
def Region.shape {F : Type} (reg : Region F) :
    String × List (ℕ × ℕ) × List (ℕ × ℕ × Value F) :=
  (reg.name, reg.advice.map fun a => (a.1, a.2.1), reg.fixed)

/-- The witness-independent structure of a trace: region shapes in order,
copy constraints and instance bindings. Exactly the advice values are
dropped. -/
def traceShape {F : Type} (t : Trace F) :
    List (String × List (ℕ × ℕ) × List (ℕ × ℕ × Value F)) ×
      List (Cell × Cell) × List (Cell × ℕ × ℕ) :=
  (t.regions.map Region.shape, t.copies, t.instBindings)

/-- The fixed-cell (circuit-shape) content of a trace: per region, its name
and its fixed assignments. -/
def fixedCells {F : Type} (t : Trace F) : List (String × List (ℕ × ℕ × Value F)) :=
  t.regions.map fun reg => (reg.name, reg.fixed)

/-- Advice valuation placing `lv`, `rv`, `ov` in columns l, r, o. -/
def advOf {F : Type} [CommRing F] (lv rv ov : F) : ℕ → ℤ → F :=
  fun column _ => match column with
    | 0 => lv
    | 1 => rv
    | 2 => ov
    | _ => 0

/-- Fixed valuation giving the five selectors (in the allocation order of
`configure`: sm is fixed column 0, then sl, sr, so, sc). -/
def selOf {F : Type} [CommRing F] (smv slv srv sov scv : F) : ℕ → ℤ → F :=
  fun column _ => match column with
    | 0 => smv
    | 1 => slv
    | 2 => srv
    | 3 => sov
    | 4 => scv
    | _ => 0

instance : Fact (Nat.Prime 101) := ⟨by norm_num⟩

/-- The queries recorded by the "plonk" gate closure, in the order the
closure makes them: l, r, o, then sm, sl, sr, so, sc, then PI, all at the
current rotation. -/
def plonkQueries : List Query :=
  [.adviceQ 0 0, .adviceQ 1 0, .adviceQ 2 0,
   .fixedQ 0 0, .fixedQ 1 0, .fixedQ 2 0, .fixedQ 3 0, .fixedQ 4 0,
   .instQ 0 0]

/-- The polynomial expression returned by the "plonk" gate closure, with the
column indices resolved (l, r, o are advice 0, 1, 2; sm, sl, sr, so, sc are
fixed 0, 1, 2, 3, 4). -/
def plonkExpr (F : Type) [CommRing F] : Expr F :=
  Expr.fixedE 1 0 * Expr.adviceE 0 0 + Expr.fixedE 2 0 * Expr.adviceE 1 0
    + Expr.adviceE 0 0 * Expr.adviceE 1 0 * Expr.fixedE 0 0
    + Expr.adviceE 2 0 * Expr.fixedE 3 0 * Expr.const (-(1 : F))
    + Expr.fixedE 4 0

/-- `configure` registers exactly the "plonk" gate with the queries and
expression above. -/
lemma gatesOf_eq {F : Type} [CommRing F] :
    gatesOf F = [("plonk", plonkQueries, [plonkExpr F])] := rfl

/-- The column indices allocated by `configure`. -/
lemma theConfig_eq {F : Type} [CommRing F] :
    theConfig F = ⟨0, 1, 2, 1, 2, 3, 0, 4, 0⟩ := rfl

/-- Claim C1 (code bug): the claim says every witness `(x, y, c)` yields a
trace on which every gate identity, every copy constraint and the
public-input binding hold with public value x^2 * y^2 + c. The code violates
this: `raw_add` never sets the `so` selector, so on the add region the gate
evaluates to l + r = x^2 * y^2 + c, which is nonzero for the witness
`(2, 3, 5)`; validation fails even with the correct public value 41. -/
theorem c1_valid_trace_bug :
    ¬ traceValid (synthTrace (F := ZMod 101) ⟨Value.known 2, Value.known 3, 5⟩)
      (fun _ => 41) := by decide

/-- Claim C2 (counterexample): the triple `(1, 1, 2)` satisfies a + b = c,
and the row written by `raw_add` for it — exactly as the claim describes it,
with sl = sr = 1 and so, sm, sc left at 0 — does not satisfy the registered
gate identity. -/
theorem c2_raw_add_counterexample :
    (1 : ZMod 101) + 1 = 2
    ∧ (ArithmeticChip.new (F := ZMod 101) (theConfig (ZMod 101))).raw_add
        (fun _ => Value.known (1, 1, 2)) Trace.empty
        = Except.ok ((⟨0, 0, 0⟩, ⟨0, 1, 0⟩, ⟨0, 2, 0⟩),
            (⟨[addRegion 1 1 2], [], []⟩ : Trace (ZMod 101)))
    ∧ ¬ regionGateValues (addRegion (1 : ZMod 101) 1 2) 0 = [0] :=
  ⟨by decide, rfl, by decide⟩

/-- Claim C2 (amended): `raw_add` writes one region assigning a, b, c to
columns l, r, o at row 0 with sl = sr = 1 and so = sm = sc = 0, and returns
the three cell addresses; but because `so` is left at 0 the gate identity on
that row evaluates to a + b, so it holds iff a + b = 0 — not for every
triple with a + b = c. -/
theorem c2_raw_add_amended {F : Type} [Field F] (a b c : F) (t : Trace F) :
    (ArithmeticChip.new (F := F) (theConfig F)).raw_add
        (fun _ => Value.known (a, b, c)) t
      = Except.ok ((⟨t.regions.length, 0, 0⟩, ⟨t.regions.length, 1, 0⟩,
            ⟨t.regions.length, 2, 0⟩),
          { t with regions := t.regions ++ [addRegion a b c] })
    ∧ (addRegion a b c).adviceAt (theConfig F).l 0 = Value.known a
    ∧ (addRegion a b c).adviceAt (theConfig F).r 0 = Value.known b
    ∧ (addRegion a b c).adviceAt (theConfig F).o 0 = Value.known c
    ∧ (addRegion a b c).fixedVal (theConfig F).sl 0 = 1
    ∧ (addRegion a b c).fixedVal (theConfig F).sr 0 = 1
    ∧ (addRegion a b c).fixedVal (theConfig F).so 0 = 0
    ∧ (addRegion a b c).fixedVal (theConfig F).sm 0 = 0
    ∧ (addRegion a b c).fixedVal (theConfig F).sc 0 = 0
    ∧ (regionGateValues (addRegion a b c) 0 = [0] ↔ a + b = 0) := by
  refine ⟨rfl, rfl, rfl, rfl, rfl, rfl, rfl, rfl, rfl, ?_⟩
  have h1 : regionGateValues (addRegion a b c) 0
      = [1 * a + 1 * b + a * b * 0 + c * 0 * -(1 : F) + 0] := rfl
  rw [h1]
  simp only [List.cons.injEq, and_true]
  constructor <;> intro h <;> linear_combination h

/-- Claim C3 (counterexample): one synthesis run does not register four copy
constraints. -/
theorem c3_copy_count_counterexample :
    ¬ (synthTrace (F := ZMod 101) ⟨Value.known 2, Value.known 3, 5⟩).copies.length = 4 := by
  decide

/-- Claim C3 (amended): one run of `synthesize` registers exactly five copy
constraints (two self-multiply equalities inside the first two mul regions
and three wires feeding region outputs into later region inputs). -/
theorem c3_copy_count {F : Type} [Field F] (circ : ArithmeticCircuit F) :
    (synthTrace circ).copies.length = 5 := rfl

/-- Claim C4 (counterexample): two circuits that differ only in the constant
(5 versus 17) synthesize traces with identical fixed-cell content, so the
cells fixed by the circuit shape do not determine the constant. -/
theorem c4_constant_counterexample :
    fixedCells (synthTrace (F := ZMod 101) ⟨Value.known 2, Value.known 3, 5⟩)
        = fixedCells (synthTrace ⟨Value.known 2, Value.known 3, 17⟩)
    ∧ (5 : ZMod 101) ≠ 17 :=
  ⟨rfl, by decide⟩

/-- Claim C4 (amended): the constant is indeed not supplied via the Instance
column, but it is not circuit-shape data either: the fixed cells of the
synthesized trace are identical for every circuit (in particular for every
constant), and the constant enters the trace only as the advice value
assigned to column r of the add region (region 7). -/
theorem c4_constant_not_shape_data {F : Type} [Field F] :
    (∀ circ circ2 : ArithmeticCircuit F,
        fixedCells (synthTrace circ) = fixedCells (synthTrace circ2))
    ∧ ∀ x y c : F,
        cellValue (synthTrace ⟨Value.known x, Value.known y, c⟩) ⟨7, 1, 0⟩ = c := by
  constructor
  · intro circ circ2
    rfl
  · intro x y c
    rfl

/-- Claim C5 (confirmed): the registered gate polynomial with sm = so = 1
and sl = sr = sc = 0 vanishes iff l * r = o, and with sl = sr = so = 1 and
sm = sc = 0 it vanishes iff l + r = o. -/
theorem c5_gate_degeneration {F : Type} [Field F] (l r o : F) :
    (gateValues (advOf l r o) (selOf 1 0 0 1 0) (fun _ _ => 0) = [0] ↔ l * r = o)
    ∧ (gateValues (advOf l r o) (selOf 0 1 1 1 0) (fun _ _ => 0) = [0] ↔ l + r = o) := by
  constructor
  · have h1 : gateValues (advOf l r o) (selOf 1 0 0 1 0) (fun _ _ => (0 : F))
        = [0 * l + 0 * r + l * r * 1 + o * 1 * -(1 : F) + 0] := rfl
    rw [h1]
    simp only [List.cons.injEq, and_true]
    constructor <;> intro h <;> linear_combination h
  · have h2 : gateValues (advOf l r o) (selOf 0 1 1 1 0) (fun _ _ => (0 : F))
        = [1 * l + 1 * r + l * r * 0 + o * 1 * -(1 : F) + 0] := rfl
    rw [h2]
    simp only [List.cons.injEq, and_true]
    constructor <;> intro h <;> linear_combination h

/-- Claim C6 (confirmed): `raw_multiply` allocates one region assigning a, b,
c to columns l, r, o at row 0 with sm = so = 1 and sl = sr = sc = 0, returns
the three cell addresses, and if a * b = c the registered gate identity
holds on that row. -/
theorem c6_raw_multiply {F : Type} [Field F] (a b c : F) (t : Trace F)
    (h : a * b = c) :
    (ArithmeticChip.new (F := F) (theConfig F)).raw_multiply
        (fun _ => Value.known (a, b, c)) t
      = Except.ok ((⟨t.regions.length, 0, 0⟩, ⟨t.regions.length, 1, 0⟩,
            ⟨t.regions.length, 2, 0⟩),
          { t with regions := t.regions ++ [mulRegion a b c] })
    ∧ (mulRegion a b c).adviceAt (theConfig F).l 0 = Value.known a
    ∧ (mulRegion a b c).adviceAt (theConfig F).r 0 = Value.known b
    ∧ (mulRegion a b c).adviceAt (theConfig F).o 0 = Value.known c
    ∧ (mulRegion a b c).fixedVal (theConfig F).sm 0 = 1
    ∧ (mulRegion a b c).fixedVal (theConfig F).so 0 = 1
    ∧ (mulRegion a b c).fixedVal (theConfig F).sl 0 = 0
    ∧ (mulRegion a b c).fixedVal (theConfig F).sr 0 = 0
    ∧ (mulRegion a b c).fixedVal (theConfig F).sc 0 = 0
    ∧ regionGateValues (mulRegion a b c) 0 = [0] := by
  refine ⟨rfl, rfl, rfl, rfl, rfl, rfl, rfl, rfl, rfl, ?_⟩
  have h1 : regionGateValues (mulRegion a b c) 0
      = [0 * a + 0 * b + a * b * 1 + c * 1 * -(1 : F) + 0] := rfl
  rw [h1]
  simp only [List.cons.injEq, and_true]
  linear_combination h

/-- Witness for C6 at the concrete satisfying triple 2 * 3 = 6 over
ZMod 101. -/
theorem c6_raw_multiply_witness :
    regionGateValues (mulRegion (2 : ZMod 101) 3 6) 0 = [0] :=
  (c6_raw_multiply 2 3 6 Trace.empty (by decide)).2.2.2.2.2.2.2.2.2

/-- Claim C7 (confirmed): if the public value bound at instance row 0
differs from x^2 * y^2 + c, the synthesized trace fails validation: the
instance binding registered by `expose_public` requires the add region's
output cell, whose value is x^2 * y^2 + c, to equal the public value. -/
theorem c7_wrong_public_rejected {F : Type} [Field F] (x y c : F) (inst : ℕ → F)
    (h : inst 0 ≠ x ^ 2 * y ^ 2 + c) :
    ¬ traceValid (synthTrace ⟨Value.known x, Value.known y, c⟩) inst := by
  intro hv
  apply h
  have hm : (⟨⟨7, 2, 0⟩, 0, 0⟩ : Cell × ℕ × ℕ)
      ∈ (synthTrace ⟨Value.known x, Value.known y, c⟩).instBindings := by
    rw [synthTrace_known]
    exact List.mem_singleton.mpr rfl
  have hb := hv.2.2 _ hm
  calc inst 0
      = cellValue (synthTrace ⟨Value.known x, Value.known y, c⟩) ⟨7, 2, 0⟩ := hb.symm
    _ = (x * x) * (y * y) + c := by
          rw [synthTrace_known]
          rfl
    _ = x ^ 2 * y ^ 2 + c := by ring

/-- Witness for C7: with witness `(2, 3, 5)` over ZMod 101 and the wrong
public value 40 (the correct one is 41), validation fails. -/
theorem c7_wrong_public_witness :
    ¬ traceValid (synthTrace (F := ZMod 101) ⟨Value.known 2, Value.known 3, 5⟩)
      (fun _ => 40) :=
  c7_wrong_public_rejected 2 3 5 (fun _ => 40) (by decide)

/-- Claim C8 (confirmed): a shape-only synthesis pass (`without_witnesses`,
unknown x and y) produces a trace with exactly the same structure — region
names, order and count, assigned advice cells, all fixed (selector) values,
copies and instance bindings — as a pass with any concrete witness; only the
concrete advice values differ. -/
theorem c8_shape_invariance {F : Type} [Field F] (x y c : F) :
    traceShape (synthTrace
        ((ArithmeticCircuit.mk (Value.known x) (Value.known y) c).without_witnesses))
      = traceShape (synthTrace ⟨Value.known x, Value.known y, c⟩) := rfl

/-- Claim C9 (confirmed): synthesis with x and y unknown completes with `ok`
and every advice value written into the trace (each obtained from the
unknowns by `Value.map` and `Value.zip`) is still unknown. -/
theorem c9_unknown_synthesis {F : Type} [Field F] (c : F) :
    ∃ t : Trace F,
      synthesize ⟨Value.unknown, Value.unknown, c⟩ (theConfig F) Trace.empty
          = Except.ok t
        ∧ ∀ reg ∈ t.regions, ∀ a ∈ reg.advice, a.2.2 = Value.unknown := by
  refine ⟨unknownTrace F, rfl, ?_⟩
  intro reg hreg
  simp only [unknownTrace, copyRegion, List.mem_cons, List.not_mem_nil, or_false] at hreg
  rcases hreg with rfl | rfl | rfl | rfl | rfl | rfl | rfl | rfl | rfl <;>
    intro a ha <;>
    simp only [List.mem_cons, List.not_mem_nil, or_false] at ha <;>
    rcases ha with rfl | rfl | rfl <;> rfl

/-- Claim C10 (confirmed): `configure` registers a single gate whose closure
queries the Instance column PI at the current rotation, yet the returned
polynomial does not use that query: its value is the same under any two
instance valuations. -/
theorem c10_gate_ignores_instance_query {F : Type} [Field F] :
    (gatesOf F).length = 1
    ∧ (∀ g ∈ gatesOf F, Query.instQ (theConfig F).PI Rotation.cur ∈ g.2.1)
    ∧ ∀ adv fx iv iv2 : ℕ → ℤ → F, gateValues adv fx iv = gateValues adv fx iv2 := by
  refine ⟨rfl, ?_, ?_⟩
  · intro g hg
    rw [gatesOf_eq] at hg
    rcases List.mem_singleton.mp hg with rfl
    show Query.instQ (theConfig F).PI Rotation.cur ∈ plonkQueries
    rw [theConfig_eq]
    decide
  · intro adv fx iv iv2
    rfl

end Halo2
